import Mathlib

/-!
Verification of the account-summaries tree and index module
(src/account-summaries/account_index.js).

The JavaScript source builds, from an AccountSummaries response, a nested
account tree (the global `accountTree`) and a flat entity index (the global
`entityIndex`), and exposes lookup functions over them.  This file gives a
shallow embedding of that code and settles the specification claims about it.

Modelling conventions:
* JS objects of the fixed input schema become structures; a field that may be
  absent (JS `undefined`) becomes an `Option`.
* JS arrays from the response become `List (Option _)`: a `none` element
  models a null/undefined (falsy) entry, which stops the source's
  `for (...; x = arr[i]; ...)` loops; an object element is always truthy.
* The mutable globals `accountTree` and `entityIndex` become an explicit
  `IndexState`, threaded through every function; string-keyed JS objects
  become association lists with first-match lookup and in-place overwrite.
* A JS `TypeError` (indexing into `undefined`) is modelled by returning the
  state reached so far together with `some JsError.typeError`.
* Attribute names of the input schema (`id`, `name`, `webProperties`,
  `profiles`) are assumed distinct from entity identifiers, as the spec's
  data-model section requires, so the JS conflation of attribute keys and
  child-id keys on one object is modelled by a record plus a child map.
-/

/-- Profile (view) record of the response. -/
structure Profile where
  id : String
  name : String
  deriving DecidableEq

/-- Web property record of the response.  The `profiles` field is `none` when
absent; note that `some []` models a present but empty array, which is truthy
in JS. -/
structure Property where
  id : String
  name : String
  profiles : Option (List (Option Profile))
  deriving DecidableEq

/-- Account record of the response. -/
structure Account where
  id : String
  name : String
  webProperties : Option (List (Option Property))
  deriving DecidableEq

/-- AccountSummaries response; the `items` field may be absent. -/
structure Response where
  items : Option (List (Option Account))
  deriving DecidableEq

/-- First-match lookup in a string-keyed association list (JS object read). -/
def getKey {α : Type} : List (String × α) → String → Option α
  | [], _ => none
  | (k', v) :: rest, k => if k' = k then some v else getKey rest k

/-- JS object write: overwrite the first binding of the key in place, or
append a new binding at the end. -/
def setKey {α : Type} : List (String × α) → String → α → List (String × α)
  | [], k, v => [(k, v)]
  | (k', v') :: rest, k, v =>
      if k' = k then (k, v) :: rest else (k', v') :: setKey rest k v

/-- Property object as stored in the tree: the property's own attributes plus
the profile children attached under their ids. -/
structure PropNode where
  prop : Property
  profileChildren : List (String × Profile)
  deriving DecidableEq

/-- Account object as stored in the tree: the account's own attributes plus
the kept property children attached under their ids. -/
structure AccountNode where
  account : Account
  propChildren : List (String × PropNode)
  deriving DecidableEq

/-- State of the two module-level globals of the source (lines 60 and 88). -/
structure IndexState where
  accountTree : List (String × AccountNode)
  entityIndex : List (String × String)
  deriving DecidableEq

/-- Initial state: both globals start as empty objects. -/
def emptyState : IndexState := ⟨[], []⟩

/-- Exception raised by the build on malformed input (indexing `undefined`). -/
inductive JsError where
  | typeError
  deriving DecidableEq

-- Entity prefixes for the index (source lines 64 to 66).
def ACCOUNT_PREFIX : String := "a"
def PROPERTY_PREFIX : String := "p"
def PROFILE_PREFIX : String := "v"

/-- Inner profile loop of `buildAccountTreeIndex` (source lines 117 to 123):
`for (var p = 0, profile; profile = property.profiles[p]; ++p)`.
A `none` element is falsy and ends the loop.  The tree update re-reads
`accountTree[account.id][property.id]` exactly as the source does; the `none`
fallbacks on those reads are unreachable when called from the build, which
establishes both keys immediately before this loop (JS would raise there). -/
def profilesLoop (accountId propertyId : String) :
    List (Option Profile) → IndexState → IndexState
  | [], st => st
  | none :: _, st => st
  | some profile :: rest, st =>
      let tree :=
        match getKey st.accountTree accountId with
        | none => st.accountTree
        | some anode =>
            match getKey anode.propChildren propertyId with
            | none => st.accountTree
            | some pnode =>
                let pnode' :=
                  { pnode with profileChildren := setKey pnode.profileChildren profile.id profile }
                let anode' :=
                  { anode with propChildren := setKey anode.propChildren propertyId pnode' }
                setKey st.accountTree accountId anode'
      let idx1 := setKey st.entityIndex
        ( ACCOUNT_PREFIX ++ PROFILE_PREFIX ++ profile.id) accountId
      let idx2 := setKey idx1
        ( PROPERTY_PREFIX ++ PROFILE_PREFIX ++ profile.id) propertyId
      profilesLoop accountId propertyId rest ⟨tree, idx2⟩

/-- Middle property loop of `buildAccountTreeIndex` (source lines 110 to 125).
The source guard `if (property.profiles)` is a JS truthiness test: the field
being present is enough — an empty array is truthy, so a property whose
`profiles` is a present empty array is NOT skipped.  A fresh tree node with no
profile children is attached, matching how
`accountTree[account.id][property.id] = property` stores the raw property
object. -/
def propertiesLoop (accountId : String) :
    List (Option Property) → IndexState → IndexState
  | [], st => st
  | none :: _, st => st
  | some property :: rest, st =>
      match property.profiles with
      | none => propertiesLoop accountId rest st
      | some plist =>
          let tree :=
            match getKey st.accountTree accountId with
            | none => st.accountTree
            | some anode =>
                let anode' :=
                  { anode with propChildren := setKey anode.propChildren property.id ⟨property, []⟩ }
                setKey st.accountTree accountId anode'
          let idx := setKey st.entityIndex
            ( ACCOUNT_PREFIX ++ PROPERTY_PREFIX ++ property.id) accountId
          let st1 := profilesLoop accountId property.id plist ⟨tree, idx⟩
          propertiesLoop accountId rest st1

/-- Outer account loop of `buildAccountTreeIndex` (source lines 107 to 126).
The write `accountTree[account.id] = account` runs before the property loop,
so the account is inserted even when `account.webProperties` is absent; in
that case `account.webProperties[0]` raises a TypeError, modelled by
`some JsError.typeError` together with the state reached so far. -/
def itemsLoop : List (Option Account) → IndexState → IndexState × Option JsError
  | [], st => (st, none)
  | none :: _, st => (st, none)
  | some account :: rest, st =>
      let st1 : IndexState :=
        ⟨setKey st.accountTree account.id ⟨account, []⟩, st.entityIndex⟩
      match account.webProperties with
      | none => (st1, some .typeError)
      | some wlist => itemsLoop rest (propertiesLoop account.id wlist st1)

/-- Embedding of `buildAccountTreeIndex` (source lines 106 to 127).  When
`items` is absent, `accountSummariesResponse.items[0]` raises a TypeError
before any insertion. -/
def buildAccountTreeIndex (accountSummariesResponse : Response)
    (st : IndexState) : IndexState × Option JsError :=
  match accountSummariesResponse.items with
  | none => (st, some .typeError)
  | some itemsL => itemsLoop itemsL st

/-- Embedding of `initSummaries` (source lines 92 to 94). -/
def initSummaries (accountSummariesResponse : Response)
    (st : IndexState) : IndexState × Option JsError :=
  buildAccountTreeIndex accountSummariesResponse st

/-- Result of `getAccount` and the account-returning lookups: the stored
account object, or the empty object literal returned on a miss. -/
inductive GetAccountResult where
  | account (node : AccountNode)
  | empty
  deriving DecidableEq

/-- Result of `_getProperty` and `getPropertyByProfileId`: the stored property
object, or the empty object literal returned on a miss. -/
inductive GetPropertyResult where
  | property (node : PropNode)
  | empty
  deriving DecidableEq

/-- Embedding of `_getEntityId` (source lines 245 to 250).  The source guard
`if (entityIndex[indexKey])` is a truthiness test, so a stored empty string
and a missing key both yield the empty string. -/
def _getEntityId (st : IndexState) (indexKey : String) : String × IndexState :=
  match getKey st.entityIndex indexKey with
  | some v => if v = "" then ("", st) else (v, st)
  | none => ("", st)

/-- Embedding of `getAccount` (source lines 180 to 185); a stored account
object is truthy. -/
def getAccount (st : IndexState) (accountId : String) :
    GetAccountResult × IndexState :=
  match getKey st.accountTree accountId with
  | some node => (.account node, st)
  | none => (.empty, st)

/-- Embedding of `getAccountByPropertyId` (source lines 137 to 141). -/
def getAccountByPropertyId (st : IndexState) (propertyId : String) :
    GetAccountResult × IndexState :=
  let r := _getEntityId st ( ACCOUNT_PREFIX ++ PROPERTY_PREFIX ++ propertyId)
  getAccount r.2 r.1

/-- Embedding of `getAccountByProfileId` (source lines 151 to 155). -/
def getAccountByProfileId (st : IndexState) (profileId : String) :
    GetAccountResult × IndexState :=
  let r := _getEntityId st ( ACCOUNT_PREFIX ++ PROFILE_PREFIX ++ profileId)
  getAccount r.2 r.1

/-- Embedding of `_getProperty` (source lines 229 to 234). -/
def _getProperty (st : IndexState) (accountId propertyId : String) :
    GetPropertyResult × IndexState :=
  match getKey st.accountTree accountId with
  | some anode =>
      match getKey anode.propChildren propertyId with
      | some pnode => (.property pnode, st)
      | none => (.empty, st)
  | none => (.empty, st)

/-- Embedding of `getPropertyByProfileId` (source lines 165 to 171). -/
def getPropertyByProfileId (st : IndexState) (profileId : String) :
    GetPropertyResult × IndexState :=
  let r1 := _getEntityId st ( ACCOUNT_PREFIX ++ PROFILE_PREFIX ++ profileId)
  let r2 := _getEntityId r1.2 ( PROPERTY_PREFIX ++ PROFILE_PREFIX ++ profileId)
  _getProperty r2.2 r1.1 r2.1

/-- Embedding of `getProperty` (source lines 195 to 201).  Since
`getAccountByPropertyId` always returns an object and every object is truthy,
the source's final fallback branch is unreachable; on a miss the result is
`account[propertyId]`, i.e. JS `undefined`, modelled by `none`. -/
def getProperty (st : IndexState) (propertyId : String) :
    Option PropNode × IndexState :=
  let r := getAccountByPropertyId st propertyId
  match r.1 with
  | .account node => (getKey node.propChildren propertyId, r.2)
  | .empty => (none, r.2)

/-- Embedding of `getProfile` (source lines 210 to 216); same unreachable
fallback branch as `getProperty`, so a miss yields JS `undefined` (`none`). -/
def getProfile (st : IndexState) (profileId : String) :
    Option Profile × IndexState :=
  let r := getPropertyByProfileId st profileId
  match r.1 with
  | .property pnode => (getKey pnode.profileChildren profileId, r.2)
  | .empty => (none, r.2)

/-- JS attribute read `.name` on a `getAccount` result: `undefined` on the
empty object. -/
def accountNameOf : GetAccountResult → Option String
  | .account node => some node.account.name
  | .empty => none

/-- JS attribute read `.id` on a `getAccount` result. -/
def accountIdOf : GetAccountResult → Option String
  | .account node => some node.account.id
  | .empty => none

/-- JS attribute read `.id` on a `getPropertyByProfileId` result. -/
def propertyIdOf : GetPropertyResult → Option String
  | .property node => some node.prop.id
  | .empty => none

/-!
Derived, purely input-driven descriptions of what the build writes.  These are
not part of the source; they are the analysis vocabulary used to characterize
the build loops, and the claim theorems relate the embedded source functions
to them.
-/

/-- Elements of a JS array consumed by a `for (...; x = arr[i]; ...)` loop:
the longest all-truthy front segment. -/
def takeTruthy {α : Type} : List (Option α) → List α
  | [] => []
  | none :: _ => []
  | some x :: rest => x :: takeTruthy rest

/-- Profile children map accumulated by the profile loop. -/
def profileFold (m : List (String × Profile)) : List Profile → List (String × Profile)
  | [] => m
  | v :: rest => profileFold (setKey m v.id v) rest

/-- Profiles of a property that the build actually iterates over. -/
def keptProfiles (p : Property) : List Profile :=
  match p.profiles with
  | none => []
  | some plist => takeTruthy plist

/-- Tree node the build produces for a kept property. -/
def propNodeOf (p : Property) : PropNode :=
  ⟨p, profileFold [] (keptProfiles p)⟩

/-- Property children map accumulated by the property loop: properties whose
`profiles` field is absent are skipped, every other iterated property gets a
fresh node. -/
def propFold (m : List (String × PropNode)) : List Property → List (String × PropNode)
  | [] => m
  | p :: rest =>
      match p.profiles with
      | none => propFold m rest
      | some _ => propFold (setKey m p.id (propNodeOf p)) rest

/-- Properties of an account that the build keeps (iterated and not skipped). -/
def keptProps (a : Account) : List Property :=
  match a.webProperties with
  | none => []
  | some wlist => (takeTruthy wlist).filter (fun p => p.profiles.isSome)

/-- Tree node the build produces for an account occurrence. -/
def nodeOf (a : Account) : AccountNode :=
  match a.webProperties with
  | none => ⟨a, []⟩
  | some wlist => ⟨a, propFold [] (takeTruthy wlist)⟩

/-- Account tree accumulated over a list of processed accounts. -/
def accountFold (t : List (String × AccountNode)) : List Account → List (String × AccountNode)
  | [] => t
  | a :: rest => accountFold (setKey t a.id (nodeOf a)) rest

/-- Entity-index writes issued by the profile loop, in order. -/
def profileWrites (accountId propertyId : String) : List Profile → List (String × String)
  | [] => []
  | v :: rest =>
      ( ACCOUNT_PREFIX ++ PROFILE_PREFIX ++ v.id, accountId) ::
      ( PROPERTY_PREFIX ++ PROFILE_PREFIX ++ v.id, propertyId) ::
      profileWrites accountId propertyId rest

/-- Entity-index writes issued for one iterated property. -/
def propertyWrites (accountId : String) (p : Property) : List (String × String) :=
  match p.profiles with
  | none => []
  | some plist =>
      ( ACCOUNT_PREFIX ++ PROPERTY_PREFIX ++ p.id, accountId) ::
      profileWrites accountId p.id (takeTruthy plist)

/-- Entity-index writes issued by the property loop over iterated properties. -/
def propsWrites (accountId : String) : List Property → List (String × String)
  | [] => []
  | p :: rest => propertyWrites accountId p ++ propsWrites accountId rest

/-- Entity-index writes issued while processing one account occurrence. -/
def accountWrites (a : Account) : List (String × String) :=
  match a.webProperties with
  | none => []
  | some wlist => propsWrites a.id (takeTruthy wlist)

/-- Entity-index writes issued by the whole build, in order. -/
def itemsWrites : List Account → List (String × String)
  | [] => []
  | a :: rest => accountWrites a ++ itemsWrites rest

/-- Replay a list of writes onto an association list. -/
def applyWrites {α : Type} (m : List (String × α)) : List (String × α) → List (String × α)
  | [] => m
  | (k, v) :: rest => applyWrites (setKey m k v) rest

/-- Value of the last write to a key in a write list, if any. -/
def lastVal {α : Type} : List (String × α) → String → Option α
  | [], _ => none
  | (k', v) :: rest, k =>
      match lastVal rest k with
      | some v' => some v'
      | none => if k' = k then some v else none

/-- Accounts whose processing the build at least starts: the truthy front
segment of `items`, truncated just after the first account whose
`webProperties` field is absent (that account is inserted, then the loop
raises). -/
def processedAccounts : List (Option Account) → List Account
  | [] => []
  | none :: _ => []
  | some a :: rest =>
      match a.webProperties with
      | none => [a]
      | some _ => a :: processedAccounts rest

/-- Error outcome of the account loop on a given `items` array. -/
def buildError : List (Option Account) → Option JsError
  | [] => none
  | none :: _ => none
  | some a :: rest =>
      match a.webProperties with
      | none => some .typeError
      | some _ => buildError rest

/-- Identifiers of all processed accounts. -/
def processedIds (itemsL : List (Option Account)) : List String :=
  (processedAccounts itemsL).map Account.id

/-- Identifiers of all kept properties of all processed accounts. -/
def allKeptPropIds (itemsL : List (Option Account)) : List String :=
  (processedAccounts itemsL).flatMap (fun a => (keptProps a).map Property.id)

/-- Identifiers of all iterated profiles of kept properties. -/
def allKeptProfileIds (itemsL : List (Option Account)) : List String :=
  (processedAccounts itemsL).flatMap
    (fun a => (keptProps a).flatMap (fun p => (keptProfiles p).map Profile.id))

/-! Basic lemmas about the association-list operations. -/

@[simp]
theorem getKey_setKey_self {α : Type} (m : List (String × α)) (k : String) (v : α) :
    getKey (setKey m k v) k = some v := by
  induction m with
  | nil => simp [setKey, getKey]
  | cons p rest ih =>
      obtain ⟨k', v'⟩ := p
      by_cases h : k' = k
      · simp [setKey, getKey, h]
      · simp [setKey, getKey, h, ih]

theorem getKey_setKey_ne {α : Type} (m : List (String × α)) {k k' : String} (v : α)
    (h : k ≠ k') : getKey (setKey m k v) k' = getKey m k' := by
  induction m with
  | nil => simp [setKey, getKey, h]
  | cons p rest ih =>
      obtain ⟨k₀, v₀⟩ := p
      by_cases hk : k₀ = k
      · subst hk; simp [setKey, getKey, h]
      · simp [setKey, getKey, hk, ih]

theorem setKey_eq_of_getKey {α : Type} {m : List (String × α)} {k : String} {v : α}
    (h : getKey m k = some v) : setKey m k v = m := by
  induction m with
  | nil => simp [getKey] at h
  | cons p rest ih =>
      obtain ⟨k₀, v₀⟩ := p
      by_cases hk : k₀ = k
      · subst hk
        rw [getKey, if_pos rfl] at h
        injection h with h
        simp [setKey, h]
      · rw [getKey, if_neg hk] at h
        simp [setKey, hk, ih h]

theorem setKey_setKey {α : Type} (m : List (String × α)) (k : String) (v v' : α) :
    setKey (setKey m k v) k v' = setKey m k v' := by
  induction m with
  | nil => simp [setKey]
  | cons p rest ih =>
      obtain ⟨k₀, v₀⟩ := p
      by_cases hk : k₀ = k
      · simp [setKey, hk]
      · simp [setKey, hk, ih]

theorem applyWrites_append {α : Type} (ws₁ ws₂ : List (String × α))
    (m : List (String × α)) :
    applyWrites m (ws₁ ++ ws₂) = applyWrites (applyWrites m ws₁) ws₂ := by
  induction ws₁ generalizing m with
  | nil => rfl
  | cons p rest ih =>
      obtain ⟨k, v⟩ := p
      simp [applyWrites, ih]

theorem lastVal_mem {α : Type} {ws : List (String × α)} {k : String} {v : α}
    (h : lastVal ws k = some v) : (k, v) ∈ ws := by
  induction ws with
  | nil => simp [lastVal] at h
  | cons p rest ih =>
      obtain ⟨k', v'⟩ := p
      rw [lastVal] at h
      cases hr : lastVal rest k with
      | some v₀ =>
          rw [hr] at h
          injection h with h
          subst h
          exact List.mem_cons_of_mem _ (ih hr)
      | none =>
          rw [hr] at h
          by_cases hk : k' = k
          · rw [if_pos hk] at h
            injection h with h
            subst hk
            subst h
            exact List.mem_cons_self _ _
          · rw [if_neg hk] at h
            exact absurd h (by simp)

theorem lastVal_eq_none_iff {α : Type} {ws : List (String × α)} {k : String} :
    lastVal ws k = none ↔ ∀ p ∈ ws, p.1 ≠ k := by
  induction ws with
  | nil => simp [lastVal]
  | cons p rest ih =>
      obtain ⟨k', v'⟩ := p
      rw [lastVal]
      cases hr : lastVal rest k with
      | some v₀ =>
          have hmem := lastVal_mem hr
          constructor
          · intro h; exact absurd h (by simp)
          · intro h
            exact absurd rfl (h (k, v₀) (List.mem_cons_of_mem _ hmem))
      | none =>
          by_cases hk : k' = k
          · subst hk
            simp
          · simp only [if_neg hk]
            constructor
            · intro _ p hp hpk
              rcases List.mem_cons.mp hp with heq | hmem'
              · subst heq; exact hk hpk
              · exact (ih.mp hr) p hmem' hpk
            · intro _; trivial

theorem lastVal_eq_some {α : Type} {ws : List (String × α)} {k : String} {v : α}
    (hmem : (k, v) ∈ ws) (huniq : ∀ p ∈ ws, p.1 = k → p.2 = v) :
    lastVal ws k = some v := by
  induction ws with
  | nil => simp at hmem
  | cons p rest ih =>
      obtain ⟨k', v'⟩ := p
      rw [lastVal]
      cases hr : lastVal rest k with
      | some v₀ =>
          have h₀ : v₀ = v := huniq (k, v₀) (List.mem_cons_of_mem _ (lastVal_mem hr)) rfl
          simp [h₀]
      | none =>
          rcases List.mem_cons.mp hmem with heq | hmem'
          · have hk : k' = k := congrArg Prod.fst heq.symm
            have hv : v' = v := congrArg Prod.snd heq.symm
            simp [hk, hv]
          · exact absurd hmem' (by
              intro hc
              exact (lastVal_eq_none_iff.mp hr) (k, v) hc rfl)

theorem getKey_applyWrites {α : Type} (ws : List (String × α))
    (m : List (String × α)) (k : String) :
    getKey (applyWrites m ws) k =
      match lastVal ws k with
      | some v => some v
      | none => getKey m k := by
  induction ws generalizing m with
  | nil => rfl
  | cons p rest ih =>
      obtain ⟨k', v⟩ := p
      rw [applyWrites, ih]
      cases hr : lastVal rest k with
      | some v₀ => simp [lastVal, hr]
      | none =>
          by_cases hk : k' = k
          · subst hk
            simp [lastVal, hr]
          · simp [lastVal, hr, hk, getKey_setKey_ne _ _ hk]

/-! Characterization of the build loops by purely input-driven folds. -/

theorem profilesLoop_spec (ps : List (Option Profile)) (accountId propertyId : String)
    (st : IndexState) (anode : AccountNode) (pnode : PropNode)
    (ha : getKey st.accountTree accountId = some anode)
    (hp : getKey anode.propChildren propertyId = some pnode) :
    profilesLoop accountId propertyId ps st =
      ⟨setKey st.accountTree accountId
          ⟨anode.account,
            setKey anode.propChildren propertyId
              ⟨pnode.prop, profileFold pnode.profileChildren (takeTruthy ps)⟩⟩,
        applyWrites st.entityIndex
          (profileWrites accountId propertyId (takeTruthy ps))⟩ := by
  induction ps generalizing st anode pnode ha hp with
  | nil =>
      have h1 : (⟨pnode.prop,
          profileFold pnode.profileChildren (takeTruthy ([] : List (Option Profile)))⟩ :
            PropNode) = pnode := rfl
      rw [h1, setKey_eq_of_getKey hp]
      have h2 : (⟨anode.account, anode.propChildren⟩ : AccountNode) = anode := rfl
      rw [h2, setKey_eq_of_getKey ha]
      rfl
  | cons hd tl ih =>
      cases hd with
      | none =>
          have h1 : (⟨pnode.prop,
              profileFold pnode.profileChildren (takeTruthy (none :: tl))⟩ :
                PropNode) = pnode := rfl
          rw [h1, setKey_eq_of_getKey hp]
          have h2 : (⟨anode.account, anode.propChildren⟩ : AccountNode) = anode := rfl
          rw [h2, setKey_eq_of_getKey ha]
          rfl
      | some profile =>
          have hA := getKey_setKey_self st.accountTree accountId
            (⟨anode.account, setKey anode.propChildren propertyId
              ⟨pnode.prop, setKey pnode.profileChildren profile.id profile⟩⟩ : AccountNode)
          have hP := getKey_setKey_self anode.propChildren propertyId
            (⟨pnode.prop, setKey pnode.profileChildren profile.id profile⟩ : PropNode)
          have step : profilesLoop accountId propertyId (some profile :: tl) st =
              profilesLoop accountId propertyId tl
                ⟨setKey st.accountTree accountId
                    ⟨anode.account, setKey anode.propChildren propertyId
                      ⟨pnode.prop, setKey pnode.profileChildren profile.id profile⟩⟩,
                  setKey (setKey st.entityIndex
                      ( ACCOUNT_PREFIX ++ PROFILE_PREFIX ++ profile.id) accountId)
                    ( PROPERTY_PREFIX ++ PROFILE_PREFIX ++ profile.id) propertyId⟩ := by
            simp only [profilesLoop, ha, hp]
          rw [step, ih _ _ _ hA hP]
          rw [setKey_setKey, setKey_setKey]
          rfl

theorem propertiesLoop_spec (ws : List (Option Property)) (accountId : String)
    (st : IndexState) (anode : AccountNode)
    (ha : getKey st.accountTree accountId = some anode) :
    propertiesLoop accountId ws st =
      ⟨setKey st.accountTree accountId
          ⟨anode.account, propFold anode.propChildren (takeTruthy ws)⟩,
        applyWrites st.entityIndex (propsWrites accountId (takeTruthy ws))⟩ := by
  induction ws generalizing st anode ha with
  | nil =>
      have h2 : (⟨anode.account,
          propFold anode.propChildren (takeTruthy ([] : List (Option Property)))⟩ :
            AccountNode) = anode := rfl
      rw [h2, setKey_eq_of_getKey ha]
      rfl
  | cons hd tl ih =>
      cases hd with
      | none =>
          have h2 : (⟨anode.account,
              propFold anode.propChildren (takeTruthy (none :: tl))⟩ :
                AccountNode) = anode := rfl
          rw [h2, setKey_eq_of_getKey ha]
          rfl
      | some property =>
          cases hpf : property.profiles with
          | none =>
              have step : propertiesLoop accountId (some property :: tl) st =
                  propertiesLoop accountId tl st := by
                simp only [propertiesLoop, hpf]
              rw [step, ih st anode ha]
              simp only [takeTruthy, propFold, propsWrites, propertyWrites, hpf,
                List.nil_append]
          | some plist =>
              have hA := getKey_setKey_self st.accountTree accountId
                (⟨anode.account,
                  setKey anode.propChildren property.id ⟨property, []⟩⟩ : AccountNode)
              have hP := getKey_setKey_self anode.propChildren property.id
                (⟨property, []⟩ : PropNode)
              have step : propertiesLoop accountId (some property :: tl) st =
                  propertiesLoop accountId tl
                    (profilesLoop accountId property.id plist
                      ⟨setKey st.accountTree accountId
                          ⟨anode.account,
                            setKey anode.propChildren property.id ⟨property, []⟩⟩,
                        setKey st.entityIndex
                          ( ACCOUNT_PREFIX ++ PROPERTY_PREFIX ++ property.id) accountId⟩) := by
                simp only [propertiesLoop, hpf, ha]
              rw [step, profilesLoop_spec plist accountId property.id _ _ _ hA hP]
              rw [setKey_setKey, setKey_setKey]
              have hnode : (⟨property, profileFold [] (takeTruthy plist)⟩ : PropNode) =
                  propNodeOf property := by
                simp only [propNodeOf, keptProfiles, hpf]
              rw [hnode]
              have hA2 := getKey_setKey_self st.accountTree accountId
                (⟨anode.account,
                  setKey anode.propChildren property.id (propNodeOf property)⟩ : AccountNode)
              rw [ih _ _ hA2, setKey_setKey]
              simp only [takeTruthy, propFold, propsWrites, propertyWrites, hpf,
                applyWrites_append, applyWrites]

theorem itemsLoop_spec (itemsL : List (Option Account)) (st : IndexState) :
    itemsLoop itemsL st =
      (⟨accountFold st.accountTree (processedAccounts itemsL),
         applyWrites st.entityIndex (itemsWrites (processedAccounts itemsL))⟩,
       buildError itemsL) := by
  induction itemsL generalizing st with
  | nil => rfl
  | cons hd tl ih =>
      cases hd with
      | none => rfl
      | some account =>
          cases hw : account.webProperties with
          | none =>
              have step : itemsLoop (some account :: tl) st =
                  (⟨setKey st.accountTree account.id ⟨account, []⟩, st.entityIndex⟩,
                    some .typeError) := by
                simp only [itemsLoop, hw]
              rw [step]
              simp only [processedAccounts, hw, accountFold, nodeOf, itemsWrites,
                accountWrites, applyWrites, buildError]
          | some wlist =>
              have hA := getKey_setKey_self st.accountTree account.id
                (⟨account, []⟩ : AccountNode)
              have step : itemsLoop (some account :: tl) st =
                  itemsLoop tl
                    (propertiesLoop account.id wlist
                      ⟨setKey st.accountTree account.id ⟨account, []⟩, st.entityIndex⟩) := by
                simp only [itemsLoop, hw]
              rw [step, propertiesLoop_spec wlist account.id _ _ hA, setKey_setKey, ih]
              have hnode : (⟨account, propFold [] (takeTruthy wlist)⟩ : AccountNode) =
                  nodeOf account := by
                simp only [nodeOf, hw]
              rw [hnode]
              simp only [processedAccounts, hw, accountFold, itemsWrites, accountWrites,
                applyWrites_append, buildError]

/-- State reached by the build on a present `items` array, described by pure
folds over the processed accounts. -/
theorem build_state (itemsL : List (Option Account)) (st : IndexState) :
    buildAccountTreeIndex ⟨some itemsL⟩ st =
      (⟨accountFold st.accountTree (processedAccounts itemsL),
         applyWrites st.entityIndex (itemsWrites (processedAccounts itemsL))⟩,
       buildError itemsL) := by
  rw [show buildAccountTreeIndex ⟨some itemsL⟩ st = itemsLoop itemsL st from rfl,
    itemsLoop_spec]

theorem accountFold_eq_applyWrites (as : List Account) (t : List (String × AccountNode)) :
    accountFold t as = applyWrites t (as.map (fun a => (a.id, nodeOf a))) := by
  induction as generalizing t with
  | nil => rfl
  | cons a rest ih => rw [accountFold, applyWrites.eq_def]; simp only [List.map_cons]; exact ih _

theorem getKey_accountFold (as : List Account) (t : List (String × AccountNode)) (k : String) :
    getKey (accountFold t as) k =
      match lastVal (as.map (fun a => (a.id, nodeOf a))) k with
      | some n => some n
      | none => getKey t k := by
  rw [accountFold_eq_applyWrites, getKey_applyWrites]
  cases lastVal (as.map (fun a => (a.id, nodeOf a))) k <;> rfl

theorem profileFold_eq_applyWrites (vs : List Profile) (m : List (String × Profile)) :
    profileFold m vs = applyWrites m (vs.map (fun v => (v.id, v))) := by
  induction vs generalizing m with
  | nil => rfl
  | cons v rest ih => rw [profileFold, applyWrites.eq_def]; simp only [List.map_cons]; exact ih _

theorem getKey_profileFold (vs : List Profile) (m : List (String × Profile)) (k : String) :
    getKey (profileFold m vs) k =
      match lastVal (vs.map (fun v => (v.id, v))) k with
      | some v => some v
      | none => getKey m k := by
  rw [profileFold_eq_applyWrites, getKey_applyWrites]
  cases lastVal (vs.map (fun v => (v.id, v))) k <;> rfl

/-- Key-value pairs written into a property-children map for a list of
iterated properties: skipped ones contribute nothing. -/
def propKV (ps : List Property) : List (String × PropNode) :=
  (ps.filter (fun p => p.profiles.isSome)).map (fun p => (p.id, propNodeOf p))

theorem propFold_eq_applyWrites (ps : List Property) (m : List (String × PropNode)) :
    propFold m ps = applyWrites m (propKV ps) := by
  induction ps generalizing m with
  | nil => rfl
  | cons p rest ih =>
      cases hpf : p.profiles with
      | none =>
          rw [propFold]
          simp only [hpf]
          rw [ih]
          simp only [propKV, List.filter_cons, hpf, Option.isSome_none]
          rfl
      | some plist =>
          rw [propFold]
          simp only [hpf]
          rw [ih]
          simp only [propKV, List.filter_cons, hpf, Option.isSome_some]
          rfl

theorem getKey_propFold (ps : List Property) (m : List (String × PropNode)) (k : String) :
    getKey (propFold m ps) k =
      match lastVal (propKV ps) k with
      | some n => some n
      | none => getKey m k := by
  rw [propFold_eq_applyWrites, getKey_applyWrites]
  cases lastVal (propKV ps) k <;> rfl

/-! Shape of the composite index keys. -/

theorem key_data_ap (x : String) :
    ( ACCOUNT_PREFIX ++ PROPERTY_PREFIX ++ x).data = 'a' :: 'p' :: x.data := by
  rw [show ACCOUNT_PREFIX ++ PROPERTY_PREFIX ++ x = "ap" ++ x from rfl,
    String.data_append]
  rfl

theorem key_data_av (x : String) :
    ( ACCOUNT_PREFIX ++ PROFILE_PREFIX ++ x).data = 'a' :: 'v' :: x.data := by
  rw [show ACCOUNT_PREFIX ++ PROFILE_PREFIX ++ x = "av" ++ x from rfl,
    String.data_append]
  rfl

theorem key_data_pv (x : String) :
    ( PROPERTY_PREFIX ++ PROFILE_PREFIX ++ x).data = 'p' :: 'v' :: x.data := by
  rw [show PROPERTY_PREFIX ++ PROFILE_PREFIX ++ x = "pv" ++ x from rfl,
    String.data_append]
  rfl

theorem ap_inj {x y : String}
    (h : ACCOUNT_PREFIX ++ PROPERTY_PREFIX ++ x = ACCOUNT_PREFIX ++ PROPERTY_PREFIX ++ y) :
    x = y := by
  have hd := congrArg String.data h
  rw [key_data_ap, key_data_ap] at hd
  injection hd with _ hd
  injection hd with _ hd
  exact String.ext hd

theorem av_inj {x y : String}
    (h : ACCOUNT_PREFIX ++ PROFILE_PREFIX ++ x = ACCOUNT_PREFIX ++ PROFILE_PREFIX ++ y) :
    x = y := by
  have hd := congrArg String.data h
  rw [key_data_av, key_data_av] at hd
  injection hd with _ hd
  injection hd with _ hd
  exact String.ext hd

theorem pv_inj {x y : String}
    (h : PROPERTY_PREFIX ++ PROFILE_PREFIX ++ x = PROPERTY_PREFIX ++ PROFILE_PREFIX ++ y) :
    x = y := by
  have hd := congrArg String.data h
  rw [key_data_pv, key_data_pv] at hd
  injection hd with _ hd
  injection hd with _ hd
  exact String.ext hd

theorem ap_ne_av (x y : String) :
    ACCOUNT_PREFIX ++ PROPERTY_PREFIX ++ x ≠ ACCOUNT_PREFIX ++ PROFILE_PREFIX ++ y := by
  intro h
  have hd := congrArg String.data h
  rw [key_data_ap, key_data_av] at hd
  injection hd with _ hd
  injection hd with hc _
  exact absurd hc (by decide)

theorem ap_ne_pv (x y : String) :
    ACCOUNT_PREFIX ++ PROPERTY_PREFIX ++ x ≠ PROPERTY_PREFIX ++ PROFILE_PREFIX ++ y := by
  intro h
  have hd := congrArg String.data h
  rw [key_data_ap, key_data_pv] at hd
  injection hd with hc _
  exact absurd hc (by decide)

theorem av_ne_pv (x y : String) :
    ACCOUNT_PREFIX ++ PROFILE_PREFIX ++ x ≠ PROPERTY_PREFIX ++ PROFILE_PREFIX ++ y := by
  intro h
  have hd := congrArg String.data h
  rw [key_data_av, key_data_pv] at hd
  injection hd with hc _
  exact absurd hc (by decide)

/-! Membership in the write lists issued by the build. -/

theorem mem_profileWrites {aid pid : String} {vs : List Profile} {kv : String × String}
    (h : kv ∈ profileWrites aid pid vs) :
    ∃ w ∈ vs, kv = ( ACCOUNT_PREFIX ++ PROFILE_PREFIX ++ w.id, aid) ∨
      kv = ( PROPERTY_PREFIX ++ PROFILE_PREFIX ++ w.id, pid) := by
  induction vs with
  | nil => simp [profileWrites] at h
  | cons w rest ih =>
      rw [profileWrites] at h
      rcases List.mem_cons.mp h with h1 | h2
      · exact ⟨w, List.mem_cons_self _ _, Or.inl h1⟩
      · rcases List.mem_cons.mp h2 with h3 | h4
        · exact ⟨w, List.mem_cons_self _ _, Or.inr h3⟩
        · obtain ⟨w', hw', hor⟩ := ih h4
          exact ⟨w', List.mem_cons_of_mem _ hw', hor⟩

theorem profileWrites_mem_av {aid pid : String} {vs : List Profile} {w : Profile}
    (h : w ∈ vs) :
    ( ACCOUNT_PREFIX ++ PROFILE_PREFIX ++ w.id, aid) ∈ profileWrites aid pid vs := by
  induction vs with
  | nil => simp at h
  | cons v rest ih =>
      rw [profileWrites]
      rcases List.mem_cons.mp h with h1 | h2
      · subst h1; exact List.mem_cons_self _ _
      · exact List.mem_cons_of_mem _ (List.mem_cons_of_mem _ (ih h2))

theorem profileWrites_mem_pv {aid pid : String} {vs : List Profile} {w : Profile}
    (h : w ∈ vs) :
    ( PROPERTY_PREFIX ++ PROFILE_PREFIX ++ w.id, pid) ∈ profileWrites aid pid vs := by
  induction vs with
  | nil => simp at h
  | cons v rest ih =>
      rw [profileWrites]
      rcases List.mem_cons.mp h with h1 | h2
      · subst h1; exact List.mem_cons_of_mem _ (List.mem_cons_self _ _)
      · exact List.mem_cons_of_mem _ (List.mem_cons_of_mem _ (ih h2))

theorem mem_propsWrites {aid : String} {ps : List Property} {kv : String × String}
    (h : kv ∈ propsWrites aid ps) :
    ∃ p ∈ ps, kv ∈ propertyWrites aid p := by
  induction ps with
  | nil => simp [propsWrites] at h
  | cons p rest ih =>
      rw [propsWrites] at h
      rcases List.mem_append.mp h with h1 | h2
      · exact ⟨p, List.mem_cons_self _ _, h1⟩
      · obtain ⟨p', hp', hkv⟩ := ih h2
        exact ⟨p', List.mem_cons_of_mem _ hp', hkv⟩

theorem propsWrites_mem {aid : String} {ps : List Property} {p : Property}
    (hp : p ∈ ps) {kv : String × String} (h : kv ∈ propertyWrites aid p) :
    kv ∈ propsWrites aid ps := by
  induction ps with
  | nil => simp at hp
  | cons q rest ih =>
      rw [propsWrites]
      rcases List.mem_cons.mp hp with h1 | h2
      · subst h1; exact List.mem_append.mpr (Or.inl h)
      · exact List.mem_append.mpr (Or.inr (ih h2))

theorem mem_itemsWrites {as : List Account} {kv : String × String}
    (h : kv ∈ itemsWrites as) :
    ∃ a ∈ as, kv ∈ accountWrites a := by
  induction as with
  | nil => simp [itemsWrites] at h
  | cons a rest ih =>
      rw [itemsWrites] at h
      rcases List.mem_append.mp h with h1 | h2
      · exact ⟨a, List.mem_cons_self _ _, h1⟩
      · obtain ⟨a', ha', hkv⟩ := ih h2
        exact ⟨a', List.mem_cons_of_mem _ ha', hkv⟩

theorem itemsWrites_mem {as : List Account} {a : Account}
    (ha : a ∈ as) {kv : String × String} (h : kv ∈ accountWrites a) :
    kv ∈ itemsWrites as := by
  induction as with
  | nil => simp at ha
  | cons b rest ih =>
      rw [itemsWrites]
      rcases List.mem_cons.mp ha with h1 | h2
      · subst h1; exact List.mem_append.mpr (Or.inl h)
      · exact List.mem_append.mpr (Or.inr (ih h2))

theorem mem_accountWrites {a : Account} {kv : String × String}
    (h : kv ∈ accountWrites a) :
    ∃ p ∈ keptProps a,
      kv = ( ACCOUNT_PREFIX ++ PROPERTY_PREFIX ++ p.id, a.id) ∨
      ∃ w ∈ keptProfiles p,
        kv = ( ACCOUNT_PREFIX ++ PROFILE_PREFIX ++ w.id, a.id) ∨
        kv = ( PROPERTY_PREFIX ++ PROFILE_PREFIX ++ w.id, p.id) := by
  rw [accountWrites] at h
  cases hw : a.webProperties with
  | none => rw [hw] at h; simp at h
  | some wlist =>
      rw [hw] at h
      obtain ⟨p, hp, hkv⟩ := mem_propsWrites h
      rw [propertyWrites] at hkv
      cases hpf : p.profiles with
      | none => rw [hpf] at hkv; simp at hkv
      | some plist =>
          rw [hpf] at hkv
          have hkept : p ∈ keptProps a := by
            rw [keptProps, hw]
            exact List.mem_filter.mpr ⟨hp, by simp [hpf]⟩
          rcases List.mem_cons.mp hkv with h1 | h2
          · exact ⟨p, hkept, Or.inl h1⟩
          · obtain ⟨w, hwmem, hor⟩ := mem_profileWrites h2
            refine ⟨p, hkept, Or.inr ⟨w, ?_, hor⟩⟩
            rw [keptProfiles, hpf]
            exact hwmem

theorem accountWrites_mem_ap {a : Account} {p : Property} (hp : p ∈ keptProps a) :
    ( ACCOUNT_PREFIX ++ PROPERTY_PREFIX ++ p.id, a.id) ∈ accountWrites a := by
  rw [keptProps] at hp
  cases hw : a.webProperties with
  | none => rw [hw] at hp; simp at hp
  | some wlist =>
      rw [hw] at hp
      have hmem := List.mem_filter.mp hp
      obtain ⟨plist, hpf⟩ := Option.isSome_iff_exists.mp (by simpa using hmem.2)
      have : ( ACCOUNT_PREFIX ++ PROPERTY_PREFIX ++ p.id, a.id) ∈ propertyWrites a.id p := by
        rw [propertyWrites, hpf]
        exact List.mem_cons_self _ _
      rw [accountWrites, hw]
      exact propsWrites_mem hmem.1 this

theorem accountWrites_mem_av {a : Account} {p : Property} {w : Profile}
    (hp : p ∈ keptProps a) (hwv : w ∈ keptProfiles p) :
    ( ACCOUNT_PREFIX ++ PROFILE_PREFIX ++ w.id, a.id) ∈ accountWrites a := by
  rw [keptProps] at hp
  cases hw : a.webProperties with
  | none => rw [hw] at hp; simp at hp
  | some wlist =>
      rw [hw] at hp
      have hmem := List.mem_filter.mp hp
      obtain ⟨plist, hpf⟩ := Option.isSome_iff_exists.mp (by simpa using hmem.2)
      rw [keptProfiles, hpf] at hwv
      have : ( ACCOUNT_PREFIX ++ PROFILE_PREFIX ++ w.id, a.id) ∈ propertyWrites a.id p := by
        rw [propertyWrites, hpf]
        exact List.mem_cons_of_mem _ (profileWrites_mem_av hwv)
      rw [accountWrites, hw]
      exact propsWrites_mem hmem.1 this

theorem accountWrites_mem_pv {a : Account} {p : Property} {w : Profile}
    (hp : p ∈ keptProps a) (hwv : w ∈ keptProfiles p) :
    ( PROPERTY_PREFIX ++ PROFILE_PREFIX ++ w.id, p.id) ∈ accountWrites a := by
  rw [keptProps] at hp
  cases hw : a.webProperties with
  | none => rw [hw] at hp; simp at hp
  | some wlist =>
      rw [hw] at hp
      have hmem := List.mem_filter.mp hp
      obtain ⟨plist, hpf⟩ := Option.isSome_iff_exists.mp (by simpa using hmem.2)
      rw [keptProfiles, hpf] at hwv
      have : ( PROPERTY_PREFIX ++ PROFILE_PREFIX ++ w.id, p.id) ∈ propertyWrites a.id p := by
        rw [propertyWrites, hpf]
        exact List.mem_cons_of_mem _ (profileWrites_mem_pv hwv)
      rw [accountWrites, hw]
      exact propsWrites_mem hmem.1 this

/-! Projection lemmas for the resolver functions. -/

theorem _getEntityId_snd (st : IndexState) (k : String) : (_getEntityId st k).2 = st := by
  rw [_getEntityId]
  cases getKey st.entityIndex k with
  | none => rfl
  | some v => by_cases h : v = "" <;> simp [h]

theorem _getEntityId_fst (st : IndexState) (k : String) :
    (_getEntityId st k).1 = (getKey st.entityIndex k).getD "" := by
  rw [_getEntityId]
  cases getKey st.entityIndex k with
  | none => rfl
  | some v => by_cases h : v = "" <;> simp [h]

theorem getAccount_snd (st : IndexState) (k : String) : (getAccount st k).2 = st := by
  rw [getAccount]
  cases getKey st.accountTree k <;> rfl

theorem getAccount_fst (st : IndexState) (k : String) :
    (getAccount st k).1 =
      match getKey st.accountTree k with
      | some node => GetAccountResult.account node
      | none => GetAccountResult.empty := by
  rw [getAccount]
  cases getKey st.accountTree k <;> rfl

theorem _getProperty_snd (st : IndexState) (aid pid : String) :
    (_getProperty st aid pid).2 = st := by
  rw [_getProperty]
  cases getKey st.accountTree aid with
  | none => rfl
  | some anode => cases h : getKey anode.propChildren pid <;> simp [h]

theorem _getProperty_fst (st : IndexState) (aid pid : String) :
    (_getProperty st aid pid).1 =
      match getKey st.accountTree aid with
      | some anode =>
          (match getKey anode.propChildren pid with
           | some pnode => GetPropertyResult.property pnode
           | none => GetPropertyResult.empty)
      | none => GetPropertyResult.empty := by
  rw [_getProperty]
  cases getKey st.accountTree aid with
  | none => rfl
  | some anode => cases h : getKey anode.propChildren pid <;> simp [h]

theorem getAccountByPropertyId_snd (st : IndexState) (pid : String) :
    (getAccountByPropertyId st pid).2 = st := by
  simp only [getAccountByPropertyId]
  rw [getAccount_snd, _getEntityId_snd]

theorem getAccountByPropertyId_fst (st : IndexState) (pid : String) :
    (getAccountByPropertyId st pid).1 =
      (getAccount st
        ((getKey st.entityIndex ( ACCOUNT_PREFIX ++ PROPERTY_PREFIX ++ pid)).getD "")).1 := by
  simp only [getAccountByPropertyId]
  rw [_getEntityId_fst, _getEntityId_snd]

theorem getAccountByProfileId_snd (st : IndexState) (vid : String) :
    (getAccountByProfileId st vid).2 = st := by
  simp only [getAccountByProfileId]
  rw [getAccount_snd, _getEntityId_snd]

theorem getAccountByProfileId_fst (st : IndexState) (vid : String) :
    (getAccountByProfileId st vid).1 =
      (getAccount st
        ((getKey st.entityIndex ( ACCOUNT_PREFIX ++ PROFILE_PREFIX ++ vid)).getD "")).1 := by
  simp only [getAccountByProfileId]
  rw [_getEntityId_fst, _getEntityId_snd]

theorem getPropertyByProfileId_snd (st : IndexState) (vid : String) :
    (getPropertyByProfileId st vid).2 = st := by
  simp only [getPropertyByProfileId]
  rw [_getProperty_snd, _getEntityId_snd, _getEntityId_snd]

theorem getPropertyByProfileId_fst (st : IndexState) (vid : String) :
    (getPropertyByProfileId st vid).1 =
      (_getProperty st
        ((getKey st.entityIndex ( ACCOUNT_PREFIX ++ PROFILE_PREFIX ++ vid)).getD "")
        ((getKey st.entityIndex ( PROPERTY_PREFIX ++ PROFILE_PREFIX ++ vid)).getD "")).1 := by
  simp only [getPropertyByProfileId]
  simp only [_getEntityId_snd, _getEntityId_fst]

theorem getProperty_snd (st : IndexState) (pid : String) : (getProperty st pid).2 = st := by
  simp only [getProperty]
  cases (getAccountByPropertyId st pid).1 <;> simp [getAccountByPropertyId_snd]

theorem getProperty_fst (st : IndexState) (pid : String) :
    (getProperty st pid).1 =
      match (getAccountByPropertyId st pid).1 with
      | GetAccountResult.account node => getKey node.propChildren pid
      | GetAccountResult.empty => none := by
  simp only [getProperty]
  cases (getAccountByPropertyId st pid).1 <;> rfl

theorem getProfile_snd (st : IndexState) (vid : String) : (getProfile st vid).2 = st := by
  simp only [getProfile]
  cases (getPropertyByProfileId st vid).1 <;> simp [getPropertyByProfileId_snd]

theorem getProfile_fst (st : IndexState) (vid : String) :
    (getProfile st vid).1 =
      match (getPropertyByProfileId st vid).1 with
      | GetPropertyResult.property pnode => getKey pnode.profileChildren vid
      | GetPropertyResult.empty => none := by
  simp only [getProfile]
  cases (getPropertyByProfileId st vid).1 <;> rfl

/-! Build-level lookup characterizations. -/

theorem getTree_build (itemsL : List (Option Account)) (st : IndexState) (k : String) :
    getKey ((buildAccountTreeIndex ⟨some itemsL⟩ st).1).accountTree k =
      match lastVal ((processedAccounts itemsL).map (fun a => (a.id, nodeOf a))) k with
      | some n => some n
      | none => getKey st.accountTree k := by
  rw [build_state]
  exact getKey_accountFold _ _ _

theorem getIdx_build (itemsL : List (Option Account)) (st : IndexState) (k : String) :
    getKey ((buildAccountTreeIndex ⟨some itemsL⟩ st).1).entityIndex k =
      match lastVal (itemsWrites (processedAccounts itemsL)) k with
      | some v => some v
      | none => getKey st.entityIndex k := by
  rw [build_state]
  show getKey (applyWrites st.entityIndex (itemsWrites (processedAccounts itemsL))) k = _
  rw [getKey_applyWrites]
  cases lastVal (itemsWrites (processedAccounts itemsL)) k <;> rfl

theorem buildError_eq_none_iff (itemsL : List (Option Account)) :
    buildError itemsL = none ↔
      ∀ a ∈ processedAccounts itemsL, a.webProperties ≠ none := by
  induction itemsL with
  | nil => simp [buildError, processedAccounts]
  | cons hd tl ih =>
      cases hd with
      | none => simp [buildError, processedAccounts]
      | some a =>
          cases hw : a.webProperties with
          | none => simp [buildError, processedAccounts, hw]
          | some wlist => simp [buildError, processedAccounts, hw, ih]

theorem lastVal_append {α : Type} (ws₁ ws₂ : List (String × α)) (k : String) :
    lastVal (ws₁ ++ ws₂) k =
      match lastVal ws₂ k with
      | some v => some v
      | none => lastVal ws₁ k := by
  induction ws₁ with
  | nil =>
      rw [List.nil_append]
      cases lastVal ws₂ k <;> rfl
  | cons p rest ih =>
      obtain ⟨k', v⟩ := p
      rw [List.cons_append, lastVal, ih, lastVal]
      cases lastVal ws₂ k with
      | some v₂ => cases lastVal rest k <;> rfl
      | none => cases lastVal rest k <;> rfl

/-! Concrete inputs used by the claim theorems. -/

/-- Scenario input of the spec: one account, one property, one profile. -/
def scenarioProfile : Profile := ⟨"5678", "Main View"⟩
def scenarioProperty : Property := ⟨"UA-1234-1", "Main Property", some [some scenarioProfile]⟩
def scenarioAccount : Account := ⟨"1234", "Acme", some [some scenarioProperty]⟩
def scenarioItems : List (Option Account) := [some scenarioAccount]
def scenarioResp : Response := ⟨some scenarioItems⟩
def scenarioState : IndexState := (buildAccountTreeIndex scenarioResp emptyState).1

/-- Input whose only property has a present but EMPTY `profiles` array. -/
def emptyProfilesProperty : Property := ⟨"P1", "Empty Property", some []⟩
def emptyProfilesResp : Response :=
  ⟨some [some ⟨"1", "Acme", some [some emptyProfilesProperty]⟩]⟩
def emptyProfilesState : IndexState := (buildAccountTreeIndex emptyProfilesResp emptyState).1

/-- Input whose only account has no `webProperties` field. -/
def noPropsAccount : Account := ⟨"1", "Orphan", none⟩
def noPropsResp : Response := ⟨some [some noPropsAccount]⟩

/-- C5: for the concrete input of one Account (id 1234, name Acme) with one
Property (id UA-1234-1) holding one Profile (id 5678, name Main View), after
building: getAccount 1234 has name Acme, getAccountByPropertyId UA-1234-1 has
id 1234, getPropertyByProfileId 5678 has id UA-1234-1, getProfile 5678 has
name Main View, and getAccount 9999 returns the empty record. -/
theorem claim_C5_scenario :
    accountNameOf (getAccount scenarioState "1234").1 = some "Acme" ∧
    accountIdOf (getAccountByPropertyId scenarioState "UA-1234-1").1 = some "1234" ∧
    propertyIdOf (getPropertyByProfileId scenarioState "5678").1 = some "UA-1234-1" ∧
    ((getProfile scenarioState "5678").1).map Profile.name = some "Main View" ∧
    (getAccount scenarioState "9999").1 = GetAccountResult.empty := by
  decide

/-- C1: the claim states that a Property whose Profile sequence is absent OR
EMPTY is skipped entirely.  The code only skips the absent case: the guard
`if (property.profiles)` is a truthiness test and an empty array is truthy in
JS, so a Property with `profiles` equal to an empty sequence IS inserted into
the Tree, DOES get an Account-of-Property reverse-index entry, and getProperty
on its identifier returns the stored record instead of empty.  This theorem
evaluates the embedded code at that failing input, witnessing the divergence
between the code and both the claim and the source's own comment (deleted
properties have 0 profiles, so do not include them). -/
theorem claim_C1_empty_profiles_not_skipped :
    getKey emptyProfilesState.entityIndex
        ( ACCOUNT_PREFIX ++ PROPERTY_PREFIX ++ "P1") = some "1" ∧
    (getProperty emptyProfilesState "P1").1 = some ⟨emptyProfilesProperty, []⟩ ∧
    getKey emptyProfilesState.accountTree "1" =
      some ⟨⟨"1", "Acme", some [some emptyProfilesProperty]⟩,
        [("P1", ⟨emptyProfilesProperty, []⟩)]⟩ := by
  decide

/-- C8: the three reverse-index relations occupy pairwise disjoint key
spaces: for all identifiers x and y the composite keys built from the
Account-of-Property, Account-of-Profile and Property-of-Profile prefixes are
never equal across relations, so a write in one relation never overwrites an
entry of another, and each ancestor lookup consults only its own relation. -/
theorem claim_C8_prefix_namespaces_disjoint : ∀ x y : String,
    ( ACCOUNT_PREFIX ++ PROPERTY_PREFIX ++ x ≠ ACCOUNT_PREFIX ++ PROFILE_PREFIX ++ y) ∧
    ( ACCOUNT_PREFIX ++ PROPERTY_PREFIX ++ x ≠ PROPERTY_PREFIX ++ PROFILE_PREFIX ++ y) ∧
    ( ACCOUNT_PREFIX ++ PROFILE_PREFIX ++ x ≠ PROPERTY_PREFIX ++ PROFILE_PREFIX ++ y) ∧
    (∀ (m : List (String × String)) (v : String),
      getKey (setKey m ( ACCOUNT_PREFIX ++ PROPERTY_PREFIX ++ x) v)
        ( ACCOUNT_PREFIX ++ PROFILE_PREFIX ++ y) =
      getKey m ( ACCOUNT_PREFIX ++ PROFILE_PREFIX ++ y)) ∧
    (∀ (m : List (String × String)) (v : String),
      getKey (setKey m ( ACCOUNT_PREFIX ++ PROPERTY_PREFIX ++ x) v)
        ( PROPERTY_PREFIX ++ PROFILE_PREFIX ++ y) =
      getKey m ( PROPERTY_PREFIX ++ PROFILE_PREFIX ++ y)) ∧
    (∀ (m : List (String × String)) (v : String),
      getKey (setKey m ( ACCOUNT_PREFIX ++ PROFILE_PREFIX ++ x) v)
        ( PROPERTY_PREFIX ++ PROFILE_PREFIX ++ y) =
      getKey m ( PROPERTY_PREFIX ++ PROFILE_PREFIX ++ y)) := by
  intro x y
  refine ⟨ap_ne_av x y, ap_ne_pv x y, av_ne_pv x y, ?_, ?_, ?_⟩
  · intro m v
    exact getKey_setKey_ne m v (ap_ne_av x y)
  · intro m v
    exact getKey_setKey_ne m v (ap_ne_pv x y)
  · intro m v
    exact getKey_setKey_ne m v (av_ne_pv x y)

/-- C9: all six public resolver operations are pure reads: invoking any of
them on any identifier leaves the Tree and the Reverse Index (the threaded
`IndexState`) unchanged. -/
theorem claim_C9_resolvers_pure : ∀ (st : IndexState) (id : String),
    (getAccount st id).2 = st ∧
    (getProperty st id).2 = st ∧
    (getProfile st id).2 = st ∧
    (getAccountByPropertyId st id).2 = st ∧
    (getAccountByProfileId st id).2 = st ∧
    (getPropertyByProfileId st id).2 = st := by
  intro st id
  exact ⟨getAccount_snd st id, getProperty_snd st id, getProfile_snd st id,
    getAccountByPropertyId_snd st id, getAccountByProfileId_snd st id,
    getPropertyByProfileId_snd st id⟩

/-- C4 counterexample: the claim states the build never raises on malformed
input and that missing sequences are treated as empty.  On an account record
with no Property sequence, `account.webProperties[0]` indexes `undefined` and
the build raises a TypeError instead. -/
theorem claim_C4_counterexample :
    (buildAccountTreeIndex noPropsResp emptyState).2 = some JsError.typeError := by
  decide

/-- C4 amended: buildAccountTreeIndex raises no exception iff the `items`
sequence is present and every processed Account has a Property sequence; an
Account with no Property sequence is still inserted into the Tree (before the
TypeError is raised), as is every processed Account.  Only an absent Profile
sequence is treated by the silent skip rule. -/
theorem claim_C4_amended (resp : Response) (st : IndexState) :
    ((buildAccountTreeIndex resp st).2 = none ↔
      ∃ itemsL, resp.items = some itemsL ∧
        ∀ a ∈ processedAccounts itemsL, a.webProperties ≠ none) ∧
    (∀ itemsL a, resp.items = some itemsL → a ∈ processedAccounts itemsL →
      getKey ((buildAccountTreeIndex resp st).1).accountTree a.id ≠ none) := by
  obtain ⟨items⟩ := resp
  cases items with
  | none =>
      refine ⟨?_, ?_⟩
      · simp [buildAccountTreeIndex]
      · intro itemsL a h
        simp at h
  | some itemsL =>
      refine ⟨?_, ?_⟩
      · rw [build_state]
        show buildError itemsL = none ↔ _
        rw [buildError_eq_none_iff]
        constructor
        · intro h
          exact ⟨itemsL, rfl, h⟩
        · rintro ⟨itemsL', h1, h2⟩
          injection h1 with h1
          subst h1
          exact h2
      · intro itemsL' a h1 ha
        injection h1 with h1
        subst h1
        rw [getTree_build]
        cases hl : lastVal ((processedAccounts itemsL).map (fun a => (a.id, nodeOf a)))
            a.id with
        | some n => simp
        | none =>
            have := lastVal_eq_none_iff.mp hl (a.id, nodeOf a) (List.mem_map_of_mem _ ha)
            exact absurd rfl this

/-- Witness for the amended C4 theorem: the account with no Property sequence
is still found in the Tree after the failed build. -/
theorem claim_C4_witness :
    getKey ((buildAccountTreeIndex noPropsResp emptyState).1).accountTree "1" ≠ none :=
  (claim_C4_amended noPropsResp emptyState).2 [some noPropsAccount] noPropsAccount rfl
    (by decide)

/-- C7: when the input contains two Account records with the same identifier,
the build raises no error on account of the duplication (it raises only for a
missing Property sequence), and the record appearing last in input order wins:
getAccount afterwards returns the tree node built from the last such record. -/
theorem claim_C7_last_write_wins (itemsL : List (Option Account)) (st : IndexState)
    (A : Account) (as₁ as₂ : List Account)
    (hsplit : processedAccounts itemsL = as₁ ++ A :: as₂)
    (hdup : ∃ B ∈ as₁, B.id = A.id)
    (hlast : ∀ B ∈ as₂, B.id ≠ A.id) :
    ((∀ a ∈ processedAccounts itemsL, a.webProperties ≠ none) →
      (buildAccountTreeIndex ⟨some itemsL⟩ st).2 = none) ∧
    (getAccount (buildAccountTreeIndex ⟨some itemsL⟩ st).1 A.id).1 =
      GetAccountResult.account (nodeOf A) := by
  constructor
  · intro hAll
    rw [build_state]
    show buildError itemsL = none
    exact (buildError_eq_none_iff itemsL).mpr hAll
  · rw [getAccount_fst, getTree_build]
    have hl : lastVal ((processedAccounts itemsL).map (fun a => (a.id, nodeOf a))) A.id =
        some (nodeOf A) := by
      rw [hsplit, List.map_append, lastVal_append]
      have hnone : lastVal (as₂.map (fun a => (a.id, nodeOf a))) A.id = none := by
        rw [lastVal_eq_none_iff]
        intro p hp
        obtain ⟨B, hB, hBp⟩ := List.mem_map.mp hp
        rw [← hBp]
        exact hlast B hB
      have h2 : lastVal ((A :: as₂).map (fun a => (a.id, nodeOf a))) A.id =
          some (nodeOf A) := by
        rw [List.map_cons, lastVal, hnone]
        simp
      rw [h2]
    rw [hl]

/-- Witness for C7 at a concrete duplicated input. -/
def dupAccountA1 : Account := ⟨"X", "first", some []⟩
def dupAccountA2 : Account := ⟨"X", "second", some []⟩
def dupItems : List (Option Account) := [some dupAccountA1, some dupAccountA2]

theorem claim_C7_witness :
    ((buildAccountTreeIndex ⟨some dupItems⟩ emptyState).2 = none) ∧
    (getAccount (buildAccountTreeIndex ⟨some dupItems⟩ emptyState).1 "X").1 =
      GetAccountResult.account (nodeOf dupAccountA2) := by
  have h := claim_C7_last_write_wins dupItems emptyState dupAccountA2 [dupAccountA1] []
    (by decide) ⟨dupAccountA1, by decide, by decide⟩ (by decide)
  exact ⟨h.1 (by decide), h.2⟩

/-! Truncation of the loops at a falsy array element. -/

theorem profilesLoop_append_none (accountId propertyId : String)
    (xs ys : List (Option Profile)) (st : IndexState) :
    profilesLoop accountId propertyId (xs ++ none :: ys) st =
      profilesLoop accountId propertyId xs st := by
  induction xs generalizing st with
  | nil => rfl
  | cons hd tl ih =>
      cases hd with
      | none => rfl
      | some profile =>
          rw [List.cons_append]
          simp only [profilesLoop]
          exact ih _

theorem propertiesLoop_append_none (accountId : String)
    (xs ys : List (Option Property)) (st : IndexState) :
    propertiesLoop accountId (xs ++ none :: ys) st = propertiesLoop accountId xs st := by
  induction xs generalizing st with
  | nil => rfl
  | cons hd tl ih =>
      cases hd with
      | none => rfl
      | some property =>
          cases hpf : property.profiles with
          | none =>
              rw [List.cons_append]
              simp only [propertiesLoop, hpf]
              exact ih _
          | some plist =>
              rw [List.cons_append]
              simp only [propertiesLoop, hpf]
              exact ih _

theorem itemsLoop_append_none (xs ys : List (Option Account)) (st : IndexState) :
    itemsLoop (xs ++ none :: ys) st = itemsLoop xs st := by
  induction xs generalizing st with
  | nil => rfl
  | cons hd tl ih =>
      cases hd with
      | none => rfl
      | some account =>
          cases hw : account.webProperties with
          | none =>
              rw [List.cons_append]
              simp only [itemsLoop, hw]
          | some wlist =>
              rw [List.cons_append]
              simp only [itemsLoop, hw]
              exact ih _

/-- C10: each of the three loops stops at the first falsy (null/undefined)
array element: the build result on a sequence with a `none` entry equals the
result on the part before that entry, so every record after it is never
indexed, and a lookup on such a record's identifier misses unless an earlier
record used the same identifier. -/
theorem claim_C10_falsy_truncation :
    (∀ (xs ys : List (Option Account)) (st : IndexState),
      buildAccountTreeIndex ⟨some (xs ++ none :: ys)⟩ st =
        buildAccountTreeIndex ⟨some xs⟩ st) ∧
    (∀ (accountId : String) (xs ys : List (Option Property)) (st : IndexState),
      propertiesLoop accountId (xs ++ none :: ys) st =
        propertiesLoop accountId xs st) ∧
    (∀ (accountId propertyId : String) (xs ys : List (Option Profile)) (st : IndexState),
      profilesLoop accountId propertyId (xs ++ none :: ys) st =
        profilesLoop accountId propertyId xs st) ∧
    (∀ (xs ys : List (Option Account)) (k : String),
      k ∉ processedIds xs →
      (getAccount (buildAccountTreeIndex ⟨some (xs ++ none :: ys)⟩ emptyState).1 k).1 =
        GetAccountResult.empty) := by
  refine ⟨?_, ?_, ?_, ?_⟩
  · intro xs ys st
    show itemsLoop (xs ++ none :: ys) st = itemsLoop xs st
    exact itemsLoop_append_none xs ys st
  · intro aid xs ys st
    exact propertiesLoop_append_none aid xs ys st
  · intro aid pid xs ys st
    exact profilesLoop_append_none aid pid xs ys st
  · intro xs ys k hk
    have h1 : buildAccountTreeIndex ⟨some (xs ++ none :: ys)⟩ emptyState =
        buildAccountTreeIndex ⟨some xs⟩ emptyState := by
      show itemsLoop (xs ++ none :: ys) emptyState = itemsLoop xs emptyState
      exact itemsLoop_append_none xs ys emptyState
    rw [h1, getAccount_fst, getTree_build]
    cases hl : lastVal ((processedAccounts xs).map (fun a => (a.id, nodeOf a))) k with
    | some n =>
        have hmem := lastVal_mem hl
        obtain ⟨B, hB, hBp⟩ := List.mem_map.mp hmem
        have hBk : B.id = k := congrArg Prod.fst hBp
        have : k ∈ processedIds xs := by
          rw [processedIds, ← hBk]
          exact List.mem_map_of_mem _ hB
        exact absurd this hk
    | none => rfl

/-- Witness for C10: a record after a null entry is not indexed. -/
def truncAccountA : Account := ⟨"1", "Before", some []⟩
def truncAccountB : Account := ⟨"2", "After", some []⟩

theorem claim_C10_witness :
    ("2" ∉ processedIds [some truncAccountA]) ∧
    (getAccount (buildAccountTreeIndex
        ⟨some ([some truncAccountA] ++ none :: [some truncAccountB])⟩ emptyState).1 "2").1 =
      GetAccountResult.empty :=
  ⟨by decide,
    claim_C10_falsy_truncation.2.2.2 [some truncAccountA] [some truncAccountB] "2"
      (by decide)⟩

/-- Resolver results depend on the state only through key lookups in the two
globals. -/
theorem resolvers_depend_only_on_lookups {st st' : IndexState}
    (hTree : ∀ k, getKey st.accountTree k = getKey st'.accountTree k)
    (hIdx : ∀ k, getKey st.entityIndex k = getKey st'.entityIndex k) (id : String) :
    (getAccount st id).1 = (getAccount st' id).1 ∧
    (getProperty st id).1 = (getProperty st' id).1 ∧
    (getProfile st id).1 = (getProfile st' id).1 ∧
    (getAccountByPropertyId st id).1 = (getAccountByPropertyId st' id).1 ∧
    (getAccountByProfileId st id).1 = (getAccountByProfileId st' id).1 ∧
    (getPropertyByProfileId st id).1 = (getPropertyByProfileId st' id).1 := by
  have hAcc : ∀ j, (getAccount st j).1 = (getAccount st' j).1 := by
    intro j
    rw [getAccount_fst, getAccount_fst, hTree]
  have hABP : ∀ j, (getAccountByPropertyId st j).1 = (getAccountByPropertyId st' j).1 := by
    intro j
    rw [getAccountByPropertyId_fst, getAccountByPropertyId_fst, hIdx]
    exact hAcc _
  have hABV : ∀ j, (getAccountByProfileId st j).1 = (getAccountByProfileId st' j).1 := by
    intro j
    rw [getAccountByProfileId_fst, getAccountByProfileId_fst, hIdx]
    exact hAcc _
  have hGPr : ∀ a b, (_getProperty st a b).1 = (_getProperty st' a b).1 := by
    intro a b
    rw [_getProperty_fst, _getProperty_fst, hTree]
  have hPBV : ∀ j, (getPropertyByProfileId st j).1 = (getPropertyByProfileId st' j).1 := by
    intro j
    rw [getPropertyByProfileId_fst, getPropertyByProfileId_fst, hIdx, hIdx]
    exact hGPr _ _
  have hProp : ∀ j, (getProperty st j).1 = (getProperty st' j).1 := by
    intro j
    rw [getProperty_fst, getProperty_fst, hABP]
  have hProf : ∀ j, (getProfile st j).1 = (getProfile st' j).1 := by
    intro j
    rw [getProfile_fst, getProfile_fst, hPBV]
  exact ⟨hAcc id, hProp id, hProf id, hABP id, hABV id, hPBV id⟩

/-- C6: building twice with the same input yields lookup results identical to
a single build, for every identifier (in particular every identifier present
in the input), across all six resolver operations. -/
theorem claim_C6_idempotent_rebuild (resp : Response) (k : String) :
    (getAccount (buildAccountTreeIndex resp (buildAccountTreeIndex resp emptyState).1).1 k).1 =
      (getAccount (buildAccountTreeIndex resp emptyState).1 k).1 ∧
    (getProperty (buildAccountTreeIndex resp (buildAccountTreeIndex resp emptyState).1).1 k).1 =
      (getProperty (buildAccountTreeIndex resp emptyState).1 k).1 ∧
    (getProfile (buildAccountTreeIndex resp (buildAccountTreeIndex resp emptyState).1).1 k).1 =
      (getProfile (buildAccountTreeIndex resp emptyState).1 k).1 ∧
    (getAccountByPropertyId
        (buildAccountTreeIndex resp (buildAccountTreeIndex resp emptyState).1).1 k).1 =
      (getAccountByPropertyId (buildAccountTreeIndex resp emptyState).1 k).1 ∧
    (getAccountByProfileId
        (buildAccountTreeIndex resp (buildAccountTreeIndex resp emptyState).1).1 k).1 =
      (getAccountByProfileId (buildAccountTreeIndex resp emptyState).1 k).1 ∧
    (getPropertyByProfileId
        (buildAccountTreeIndex resp (buildAccountTreeIndex resp emptyState).1).1 k).1 =
      (getPropertyByProfileId (buildAccountTreeIndex resp emptyState).1 k).1 := by
  obtain ⟨items⟩ := resp
  cases items with
  | none => exact ⟨rfl, rfl, rfl, rfl, rfl, rfl⟩
  | some itemsL =>
      apply resolvers_depend_only_on_lookups
      · intro j
        rw [getTree_build, getTree_build]
        cases hl : lastVal ((processedAccounts itemsL).map (fun a => (a.id, nodeOf a))) j with
        | some n => rfl
        | none => rfl
      · intro j
        rw [getIdx_build, getIdx_build]
        cases hl : lastVal (itemsWrites (processedAccounts itemsL)) j with
        | some v => rfl
        | none => rfl

/-! Helpers for reasoning from the empty initial state. -/

theorem getTree_build_empty (itemsL : List (Option Account)) (k : String) :
    getKey ((buildAccountTreeIndex ⟨some itemsL⟩ emptyState).1).accountTree k =
      lastVal ((processedAccounts itemsL).map (fun a => (a.id, nodeOf a))) k := by
  rw [getTree_build]
  cases hl : lastVal ((processedAccounts itemsL).map (fun a => (a.id, nodeOf a))) k with
  | some n => rfl
  | none => rfl

theorem getIdx_build_empty (itemsL : List (Option Account)) (k : String) :
    getKey ((buildAccountTreeIndex ⟨some itemsL⟩ emptyState).1).entityIndex k =
      lastVal (itemsWrites (processedAccounts itemsL)) k := by
  rw [getIdx_build]
  cases hl : lastVal (itemsWrites (processedAccounts itemsL)) k with
  | some v => rfl
  | none => rfl

theorem tree_some_build_empty {itemsL : List (Option Account)} {k : String}
    {anode : AccountNode}
    (h : getKey ((buildAccountTreeIndex ⟨some itemsL⟩ emptyState).1).accountTree k =
      some anode) :
    ∃ B ∈ processedAccounts itemsL, B.id = k ∧ anode = nodeOf B := by
  rw [getTree_build_empty] at h
  obtain ⟨B, hB, hBkv⟩ := List.mem_map.mp (lastVal_mem h)
  exact ⟨B, hB, congrArg Prod.fst hBkv, (congrArg Prod.snd hBkv).symm⟩

theorem propKV_eq_keptProps (a : Account) {wlist : List (Option Property)}
    (hw : a.webProperties = some wlist) :
    propKV (takeTruthy wlist) = (keptProps a).map (fun p => (p.id, propNodeOf p)) := by
  rw [propKV, keptProps, hw]

theorem nodeOf_account (a : Account) : (nodeOf a).account = a := by
  rw [nodeOf]
  cases a.webProperties <;> rfl

theorem mem_allKeptPropIds {itemsL : List (Option Account)} {B : Account} {Q : Property}
    (hB : B ∈ processedAccounts itemsL) (hQ : Q ∈ keptProps B) :
    Q.id ∈ allKeptPropIds itemsL := by
  rw [allKeptPropIds]
  exact List.mem_flatMap.mpr ⟨B, hB, List.mem_map_of_mem _ hQ⟩

theorem mem_allKeptProfileIds {itemsL : List (Option Account)} {B : Account}
    {Q : Property} {W : Profile}
    (hB : B ∈ processedAccounts itemsL) (hQ : Q ∈ keptProps B)
    (hW : W ∈ keptProfiles Q) :
    W.id ∈ allKeptProfileIds itemsL := by
  rw [allKeptProfileIds]
  exact List.mem_flatMap.mpr ⟨B, hB, List.mem_flatMap.mpr ⟨Q, hQ, List.mem_map_of_mem _ hW⟩⟩

/-- C2: for any processed Account A with kept Property P (at least one
Profile present means `profiles` is a nonempty present sequence, so P is
kept) and iterated Profile V under P, provided identifiers are unique within
their kind (the data-model invariant of the spec), the three ancestor lookups
return A's tree record, A's tree record, and P's tree record respectively. -/
theorem claim_C2_ancestor_lookups (itemsL : List (Option Account))
    (A : Account) (P : Property) (V : Profile)
    (hA : A ∈ processedAccounts itemsL)
    (hP : P ∈ keptProps A)
    (hV : V ∈ keptProfiles P)
    (hAuniq : ∀ B ∈ processedAccounts itemsL, B.id = A.id → B = A)
    (hPuniq : ∀ B ∈ processedAccounts itemsL, ∀ Q ∈ keptProps B,
      Q.id = P.id → B = A ∧ Q = P)
    (hVuniq : ∀ B ∈ processedAccounts itemsL, ∀ Q ∈ keptProps B,
      ∀ W ∈ keptProfiles Q, W.id = V.id → B = A ∧ Q = P ∧ W = V) :
    (getAccountByPropertyId (buildAccountTreeIndex ⟨some itemsL⟩ emptyState).1 P.id).1 =
      GetAccountResult.account (nodeOf A) ∧
    (getAccountByProfileId (buildAccountTreeIndex ⟨some itemsL⟩ emptyState).1 V.id).1 =
      GetAccountResult.account (nodeOf A) ∧
    (getPropertyByProfileId (buildAccountTreeIndex ⟨some itemsL⟩ emptyState).1 V.id).1 =
      GetPropertyResult.property (propNodeOf P) ∧
    (nodeOf A).account = A ∧ (propNodeOf P).prop = P := by
  have hIdxAP : getKey ((buildAccountTreeIndex ⟨some itemsL⟩ emptyState).1).entityIndex
      ( ACCOUNT_PREFIX ++ PROPERTY_PREFIX ++ P.id) = some A.id := by
    rw [getIdx_build_empty]
    refine lastVal_eq_some (itemsWrites_mem hA (accountWrites_mem_ap hP)) ?_
    intro kv hkv hk1
    obtain ⟨B, hB, hBkv⟩ := mem_itemsWrites hkv
    obtain ⟨Q, hQ, hor⟩ := mem_accountWrites hBkv
    rcases hor with h1 | ⟨Wp, hWp, h2 | h3⟩
    · subst h1
      have hq : Q.id = P.id := ap_inj hk1
      have hBA := (hPuniq B hB Q hQ hq).1
      show B.id = A.id
      rw [hBA]
    · subst h2
      exact absurd hk1.symm (ap_ne_av P.id Wp.id)
    · subst h3
      exact absurd hk1.symm (ap_ne_pv P.id Wp.id)
  have hIdxAV : getKey ((buildAccountTreeIndex ⟨some itemsL⟩ emptyState).1).entityIndex
      ( ACCOUNT_PREFIX ++ PROFILE_PREFIX ++ V.id) = some A.id := by
    rw [getIdx_build_empty]
    refine lastVal_eq_some (itemsWrites_mem hA (accountWrites_mem_av hP hV)) ?_
    intro kv hkv hk1
    obtain ⟨B, hB, hBkv⟩ := mem_itemsWrites hkv
    obtain ⟨Q, hQ, hor⟩ := mem_accountWrites hBkv
    rcases hor with h1 | ⟨Wp, hWp, h2 | h3⟩
    · subst h1
      exact absurd hk1 (ap_ne_av Q.id V.id)
    · subst h2
      have hwv : Wp.id = V.id := av_inj hk1
      have hBA := (hVuniq B hB Q hQ Wp hWp hwv).1
      show B.id = A.id
      rw [hBA]
    · subst h3
      exact absurd hk1.symm (av_ne_pv V.id Wp.id)
  have hIdxPV : getKey ((buildAccountTreeIndex ⟨some itemsL⟩ emptyState).1).entityIndex
      ( PROPERTY_PREFIX ++ PROFILE_PREFIX ++ V.id) = some P.id := by
    rw [getIdx_build_empty]
    refine lastVal_eq_some (itemsWrites_mem hA (accountWrites_mem_pv hP hV)) ?_
    intro kv hkv hk1
    obtain ⟨B, hB, hBkv⟩ := mem_itemsWrites hkv
    obtain ⟨Q, hQ, hor⟩ := mem_accountWrites hBkv
    rcases hor with h1 | ⟨Wp, hWp, h2 | h3⟩
    · subst h1
      exact absurd hk1 (ap_ne_pv Q.id V.id)
    · subst h2
      exact absurd hk1 (av_ne_pv Wp.id V.id)
    · subst h3
      have hwv : Wp.id = V.id := pv_inj hk1
      have hQP := (hVuniq B hB Q hQ Wp hWp hwv).2.1
      show Q.id = P.id
      rw [hQP]
  have hTreeA : getKey ((buildAccountTreeIndex ⟨some itemsL⟩ emptyState).1).accountTree
      A.id = some (nodeOf A) := by
    rw [getTree_build_empty]
    refine lastVal_eq_some (List.mem_map_of_mem _ hA) ?_
    intro kv hkv hk1
    obtain ⟨B, hB, hBkv⟩ := List.mem_map.mp hkv
    subst hBkv
    have hBA := hAuniq B hB hk1
    show nodeOf B = nodeOf A
    rw [hBA]
  have hwopt : ∃ wlist, A.webProperties = some wlist := by
    cases hw : A.webProperties with
    | none =>
        rw [keptProps, hw] at hP
        simp at hP
    | some wlist => exact ⟨wlist, rfl⟩
  obtain ⟨wlist, hw⟩ := hwopt
  have hchild : getKey (nodeOf A).propChildren P.id = some (propNodeOf P) := by
    have hpc : (nodeOf A).propChildren = propFold [] (takeTruthy wlist) := by
      simp only [nodeOf, hw]
    rw [hpc, getKey_propFold, propKV_eq_keptProps A hw]
    have hl : lastVal ((keptProps A).map (fun p => (p.id, propNodeOf p))) P.id =
        some (propNodeOf P) := by
      refine lastVal_eq_some (List.mem_map_of_mem _ hP) ?_
      intro kv hkv hk1
      obtain ⟨Q, hQ, hQkv⟩ := List.mem_map.mp hkv
      subst hQkv
      have hQP := (hPuniq A hA Q hQ hk1).2
      show propNodeOf Q = propNodeOf P
      rw [hQP]
    rw [hl]
  refine ⟨?_, ?_, ?_, nodeOf_account A, rfl⟩
  · rw [getAccountByPropertyId_fst, hIdxAP]
    simp only [Option.getD_some, getAccount_fst, hTreeA]
  · rw [getAccountByProfileId_fst, hIdxAV]
    simp only [Option.getD_some, getAccount_fst, hTreeA]
  · rw [getPropertyByProfileId_fst, hIdxAV, hIdxPV]
    simp only [Option.getD_some, _getProperty_fst, hTreeA, hchild]

/-- Witness for C2 at the concrete scenario input. -/
theorem claim_C2_witness :
    (scenarioAccount ∈ processedAccounts scenarioItems) ∧
    ((getAccountByPropertyId (buildAccountTreeIndex ⟨some scenarioItems⟩ emptyState).1
        scenarioProperty.id).1 = GetAccountResult.account (nodeOf scenarioAccount) ∧
      (getAccountByProfileId (buildAccountTreeIndex ⟨some scenarioItems⟩ emptyState).1
        scenarioProfile.id).1 = GetAccountResult.account (nodeOf scenarioAccount) ∧
      (getPropertyByProfileId (buildAccountTreeIndex ⟨some scenarioItems⟩ emptyState).1
        scenarioProfile.id).1 = GetPropertyResult.property (propNodeOf scenarioProperty) ∧
      (nodeOf scenarioAccount).account = scenarioAccount ∧
      (propNodeOf scenarioProperty).prop = scenarioProperty) :=
  ⟨by decide,
    claim_C2_ancestor_lookups scenarioItems scenarioAccount scenarioProperty scenarioProfile
      (by decide) (by decide) (by decide) (by decide) (by decide) (by decide)⟩

/-- C3: for identifiers never inserted during build (including identifiers of
skipped Properties, which are never inserted), getAccount returns the empty
record and getProperty and getProfile return the absent value; being total
Lean functions over total JS object reads, none of the three can raise. -/
theorem claim_C3_misses_are_empty (itemsL : List (Option Account)) (aid pid vid : String)
    (haid : aid ∉ processedIds itemsL)
    (hpid : pid ∉ allKeptPropIds itemsL)
    (hvid : vid ∉ allKeptProfileIds itemsL) :
    (getAccount (buildAccountTreeIndex ⟨some itemsL⟩ emptyState).1 aid).1 =
      GetAccountResult.empty ∧
    (getProperty (buildAccountTreeIndex ⟨some itemsL⟩ emptyState).1 pid).1 = none ∧
    (getProfile (buildAccountTreeIndex ⟨some itemsL⟩ emptyState).1 vid).1 = none := by
  have idxApNone : getKey ((buildAccountTreeIndex ⟨some itemsL⟩ emptyState).1).entityIndex
      ( ACCOUNT_PREFIX ++ PROPERTY_PREFIX ++ pid) = none := by
    rw [getIdx_build_empty, lastVal_eq_none_iff]
    intro kv hkv
    obtain ⟨B, hB, hBkv⟩ := mem_itemsWrites hkv
    obtain ⟨Q, hQ, hor⟩ := mem_accountWrites hBkv
    rcases hor with h1 | ⟨Wp, hWp, h2 | h3⟩
    · subst h1
      intro hk
      have hq : Q.id = pid := ap_inj hk
      exact hpid (hq ▸ mem_allKeptPropIds hB hQ)
    · subst h2
      intro hk
      exact (ap_ne_av pid Wp.id) hk.symm
    · subst h3
      intro hk
      exact (ap_ne_pv pid Wp.id) hk.symm
  have idxAvNone : getKey ((buildAccountTreeIndex ⟨some itemsL⟩ emptyState).1).entityIndex
      ( ACCOUNT_PREFIX ++ PROFILE_PREFIX ++ vid) = none := by
    rw [getIdx_build_empty, lastVal_eq_none_iff]
    intro kv hkv
    obtain ⟨B, hB, hBkv⟩ := mem_itemsWrites hkv
    obtain ⟨Q, hQ, hor⟩ := mem_accountWrites hBkv
    rcases hor with h1 | ⟨Wp, hWp, h2 | h3⟩
    · subst h1
      intro hk
      exact (ap_ne_av Q.id vid) hk
    · subst h2
      intro hk
      have hw : Wp.id = vid := av_inj hk
      exact hvid (hw ▸ mem_allKeptProfileIds hB hQ hWp)
    · subst h3
      intro hk
      exact (av_ne_pv vid Wp.id) hk.symm
  have idxPvNone : getKey ((buildAccountTreeIndex ⟨some itemsL⟩ emptyState).1).entityIndex
      ( PROPERTY_PREFIX ++ PROFILE_PREFIX ++ vid) = none := by
    rw [getIdx_build_empty, lastVal_eq_none_iff]
    intro kv hkv
    obtain ⟨B, hB, hBkv⟩ := mem_itemsWrites hkv
    obtain ⟨Q, hQ, hor⟩ := mem_accountWrites hBkv
    rcases hor with h1 | ⟨Wp, hWp, h2 | h3⟩
    · subst h1
      intro hk
      exact (ap_ne_pv Q.id vid) hk
    · subst h2
      intro hk
      exact (av_ne_pv Wp.id vid) hk
    · subst h3
      intro hk
      have hw : Wp.id = vid := pv_inj hk
      exact hvid (hw ▸ mem_allKeptProfileIds hB hQ hWp)
  refine ⟨?_, ?_, ?_⟩
  · rw [getAccount_fst, getTree_build_empty]
    cases hl : lastVal ((processedAccounts itemsL).map (fun a => (a.id, nodeOf a))) aid with
    | some n =>
        obtain ⟨B, hB, hBkv⟩ := List.mem_map.mp (lastVal_mem hl)
        have hBk : B.id = aid := congrArg Prod.fst hBkv
        have : aid ∈ processedIds itemsL := by
          rw [processedIds, ← hBk]
          exact List.mem_map_of_mem _ hB
        exact absurd this haid
    | none => rfl
  · rw [getProperty_fst, getAccountByPropertyId_fst, idxApNone]
    simp only [Option.getD_none, getAccount_fst]
    cases hroot : getKey ((buildAccountTreeIndex ⟨some itemsL⟩ emptyState).1).accountTree
        "" with
    | none => simp only [hroot]
    | some anode =>
        obtain ⟨B, hB, hBid, hanode⟩ := tree_some_build_empty hroot
        subst hanode
        simp only [hroot]
        cases hw : B.webProperties with
        | none =>
            have hpc : (nodeOf B).propChildren = ([] : List (String × PropNode)) := by
              simp only [nodeOf, hw]
            rw [hpc]
            rfl
        | some wlist =>
            have hpc : (nodeOf B).propChildren = propFold [] (takeTruthy wlist) := by
              simp only [nodeOf, hw]
            rw [hpc, getKey_propFold, propKV_eq_keptProps B hw]
            have hnone : lastVal ((keptProps B).map (fun p => (p.id, propNodeOf p))) pid =
                none := by
              rw [lastVal_eq_none_iff]
              intro kv hkv
              obtain ⟨Q, hQ, hQkv⟩ := List.mem_map.mp hkv
              subst hQkv
              show Q.id ≠ pid
              intro heq
              exact hpid (heq ▸ mem_allKeptPropIds hB hQ)
            rw [hnone]
            rfl
  · rw [getProfile_fst, getPropertyByProfileId_fst, idxAvNone, idxPvNone]
    simp only [Option.getD_none, _getProperty_fst]
    cases hroot : getKey ((buildAccountTreeIndex ⟨some itemsL⟩ emptyState).1).accountTree
        "" with
    | none => simp only [hroot]
    | some anode =>
        obtain ⟨B, hB, hBid, hanode⟩ := tree_some_build_empty hroot
        subst hanode
        simp only [hroot]
        cases hchild : getKey (nodeOf B).propChildren "" with
        | none => simp only [hchild]
        | some pnode =>
            simp only [hchild]
            cases hw : B.webProperties with
            | none =>
                have hpc : (nodeOf B).propChildren = ([] : List (String × PropNode)) := by
                  simp only [nodeOf, hw]
                rw [hpc] at hchild
                exact absurd hchild (by simp [getKey])
            | some wlist =>
                have hpc : (nodeOf B).propChildren = propFold [] (takeTruthy wlist) := by
                  simp only [nodeOf, hw]
                rw [hpc, getKey_propFold, propKV_eq_keptProps B hw] at hchild
                cases hlv : lastVal ((keptProps B).map (fun p => (p.id, propNodeOf p)))
                    "" with
                | none =>
                    rw [hlv] at hchild
                    exact absurd hchild (by simp [getKey])
                | some pn =>
                    rw [hlv] at hchild
                    injection hchild with hchild
                    subst hchild
                    obtain ⟨Q, hQ, hQkv⟩ := List.mem_map.mp (lastVal_mem hlv)
                    have hpn : propNodeOf Q = pn := congrArg Prod.snd hQkv
                    rw [← hpn]
                    have hpfc : (propNodeOf Q).profileChildren =
                        profileFold [] (keptProfiles Q) := rfl
                    rw [hpfc, getKey_profileFold]
                    have hnone : lastVal ((keptProfiles Q).map (fun v => (v.id, v))) vid =
                        none := by
                      rw [lastVal_eq_none_iff]
                      intro kv hkv
                      obtain ⟨W, hW, hWkv⟩ := List.mem_map.mp hkv
                      subst hWkv
                      show W.id ≠ vid
                      intro heq
                      exact hvid (heq ▸ mem_allKeptProfileIds hB hQ hW)
                    rw [hnone]
                    rfl

/-- Witness for C3 at a concrete input with fresh identifiers. -/
theorem claim_C3_witness :
    ("9999" ∉ processedIds scenarioItems) ∧
    ("fresh-p" ∉ allKeptPropIds scenarioItems) ∧
    ("fresh-v" ∉ allKeptProfileIds scenarioItems) ∧
    ((getAccount (buildAccountTreeIndex ⟨some scenarioItems⟩ emptyState).1 "9999").1 =
        GetAccountResult.empty ∧
      (getProperty (buildAccountTreeIndex ⟨some scenarioItems⟩ emptyState).1 "fresh-p").1 =
        none ∧
      (getProfile (buildAccountTreeIndex ⟨some scenarioItems⟩ emptyState).1 "fresh-v").1 =
        none) :=
  ⟨by decide, by decide, by decide,
    claim_C3_misses_are_empty scenarioItems "9999" "fresh-p" "fresh-v"
      (by decide) (by decide) (by decide)⟩
